import Mathlib

/-!
Verification model of the influxstats metrics helpers
(src/influxstats/metrics.py).

The Python dictionaries that hold tags are insertion ordered, so they are
modelled as association lists of string pairs.  Python `d[k] = v` replaces
the value of an existing key in place (keeping its position) and appends a
fresh key at the end; `d.update(u)` applies that operation for every pair
of `u` in order.  Object identity and in-place mutation, which matter for
the registry and for tag aliasing, are modelled with an explicit heap of
tag dictionaries addressed by natural numbers.
-/

namespace Influxstats

/-- A Python dict of tags: insertion-ordered list of key/value pairs. -/
abbrev Tags := List (String × String)

/-- Python `d[k] = v`: replace the first occurrence of `k` in place,
otherwise append `(k, v)` at the end. -/
def setKey : Tags → String → String → Tags
  | [], k, v => [(k, v)]
  | (k0, v0) :: rest, k, v =>
      if k0 = k then (k, v) :: rest else (k0, v0) :: setKey rest k v

/-- Python `d.update(u)`: fold `setKey` over the pairs of `u` in order. -/
def dictUpdate (d : Tags) (u : Tags) : Tags :=
  u.foldl (fun acc kv => setKey acc kv.1 kv.2) d

/-- First-match association lookup, Python `d[k]` / `d.get(k)`. -/
def assocLookup {κ ν : Type} [DecidableEq κ] : List (κ × ν) → κ → Option ν
  | [], _ => none
  | (k0, v) :: rest, k => if k0 = k then some v else assocLookup rest k

/-- Python `k in d`. -/
def hasKey (d : Tags) (k : String) : Bool :=
  (assocLookup d k).isSome

/-- `get_tags_string`: comma-delimited `k=v` rendering of a tag dict. -/
def get_tags_string (tags : Tags) : String :=
  String.intercalate "," (tags.map (fun kv => kv.1 ++ "=" ++ kv.2))

/-- The tag dict used for one emission: a copy of the emitter tags updated
with the call-site `name` tag (`_tags.update(\x7b"name": name\x7d)` in
`get_metric`). -/
def metric_call_tags (tags : Tags) (name : String) : Tags :=
  dictUpdate tags [("name", name)]

/-- The composed metric name built inside the `get_metric` wrapper:
`f"\x7bmetric\x7d,\x7btags_s\x7d"` where `metric` is the name of the wrapped
client method (for example `incr` or `timer`). -/
def get_metric_name (metric : String) (tags : Tags) (name : String) : String :=
  metric ++ "," ++ get_tags_string (metric_call_tags tags name)

/-- The `get_metric` wrapper itself: it forwards to the underlying client
method `send` the composed full name together with the original positional
arguments, unchanged. -/
def get_metric_wrapped {ρ : Type} (metric : String) (tags : Tags)
    (send : String → List String → ρ) (name : String) (args : List String) : ρ :=
  send (get_metric_name metric tags name) args

/-- The characters after the first occurrence of `sep`, or `none` when
`sep` does not occur. -/
def afterFirstAux (sep : List Char) : List Char → Option (List Char)
  | [] => none
  | c :: cs =>
      if sep.isPrefixOf (c :: cs) then some ((c :: cs).drop sep.length)
      else afterFirstAux sep cs

/-- Python `s.split(sep, 1)[-1]`: everything after the first occurrence of
`sep`, or the whole string when `sep` does not occur. -/
def splitOnceTail (s sep : String) : String :=
  ⟨(afterFirstAux sep.data s.data).getD s.data⟩

/-- The characters before the last dot, or the whole list when there is no
dot. -/
def beforeLastDot (s : List Char) : List Char :=
  match s.reverse.dropWhile (fun c => c ≠ '.') with
  | [] => s
  | _ :: rest => rest.reverse

/-- Python `s.rsplit(".", 1)[0]`: everything before the last dot, or the
whole string when there is no dot. -/
def rsplitOnceHead (s : String) : String :=
  ⟨beforeLastDot s.data⟩

/-- `get_methods_classname` applied to the `__qualname__` of a Python
function: `fn.__qualname__.split(".<locals>.", 1)[-1].rsplit(".", 1)[0]`. -/
def get_methods_classname (qualname : String) : String :=
  rsplitOnceHead (splitOnceTail qualname ".<locals>.")

/-- The code object of a Python function, as far as `measure_function`
inspects it: `co_varnames` lists the declared parameters first and then the
other local variables of the body. -/
structure CodeObj where
  params : List String
  locals : List String
deriving DecidableEq, Repr

/-- Python `fn.__code__.co_varnames`: parameters followed by locals. -/
def co_varnames (c : CodeObj) : List String :=
  c.params ++ c.locals

/-- The decision `"statsd" in fn.__code__.co_varnames` made by
`measure_function` before injecting the client as a keyword argument. -/
def statsd_injected (c : CodeObj) : Bool :=
  (co_varnames c).contains "statsd"

/-- A wrapped Python function as `measure_function` sees it: its
`__name__`, its `__qualname__`, its code object, and its behaviour.  The
call receives the injection decision (whether the `statsd` keyword was
added) and returns a value or raises. -/
structure PyFunction (β : Type) where
  name : String
  qualname : String
  code : CodeObj
  call : Bool → Except String β

/-- The `StatsClient.extra_tags` context manager at the level of the
receiver tag dict: copy the current tags, update them in place with the
given tags, run the body, and in the `finally` block restore the saved
copy.  The body receives the merged tags, and on success returns its value
together with whatever the receiver tags were mutated to (discarded by the
restore); on failure the error escapes after the restore. -/
def extra_tags_scope {ε α : Type} (cur tags : Tags)
    (body : Tags → Except ε (α × Tags)) : Except ε α × Tags :=
  match body (dictUpdate cur tags) with
  | Except.ok (a, _) => (Except.ok a, cur)
  | Except.error e => (Except.error e, cur)

/-- Observable emissions of one wrapped call: the `incr` method invoked
with a full metric name, the `timer` method invoked with a full metric
name, and the invocation of the wrapped function itself. -/
inductive Event where
  | incr (fullName : String)
  | timer (fullName : String)
  | call
deriving DecidableEq, Repr

/-- The measurement tag dict built at the top of the `measure_function`
wrapper: `\x7b"def": fn.__name__\x7d` updated with the decorator-supplied
extra tags, then with a `class` tag when `get_methods_classname` is truthy
and differs from the current `def` value. -/
def measure_tags (fnName qualname : String) (decoratorExtra : Tags) : Tags :=
  let extra1 := dictUpdate [("def", fnName)] decoratorExtra
  let defVal := (assocLookup extra1 "def").getD ""
  let cls := get_methods_classname qualname
  if cls ≠ "" ∧ cls ≠ defVal then dictUpdate extra1 [("class", cls)] else extra1

/-- Everything observable about one call of a `measure_function`-wrapped
function: the returned or raised outcome, the emissions in order, and the
emitter tag dict after the wrapper returns. -/
structure MeasureResult (β : Type) where
  result : Except String β
  events : List Event
  finalTags : Tags
deriving Repr

/-- One call of the `measure_function` wrapper on an emitter whose tag dict
is `clientTags`.  Inside the `extra_tags` scope it emits `incr` on name
`calls`, decides the `statsd` injection from `co_varnames`, enters the
timer on name `duration`, and invokes the wrapped function; the outcome
propagates unchanged and the scope restores the tags on both exit paths. -/
def measure_wrapper {β : Type} (clientTags decoratorExtra : Tags)
    (fn : PyFunction β) : MeasureResult β :=
  let mt := measure_tags fn.name fn.qualname decoratorExtra
  let sc := extra_tags_scope (ε := String × List Event) clientTags mt
    (fun cur =>
      let e1 := Event.incr (get_metric_name "incr" cur "calls")
      let inj := statsd_injected fn.code
      let e2 := Event.timer (get_metric_name "timer" cur "duration")
      match fn.call inj with
      | Except.ok b => Except.ok ((b, [e1, e2, Event.call]), cur)
      | Except.error e => Except.error (e, [e1, e2, Event.call]))
  match sc with
  | (Except.ok (b, evs), fin) => ⟨Except.ok b, evs, fin⟩
  | (Except.error (e, evs), fin) => ⟨Except.error e, evs, fin⟩

/-- Constructor options forwarded to the underlying `statsd.StatsClient`
(everything in `**kwargs` except `tags`), with the defaults of the statsd
client constructor. -/
structure Options where
  host : String := "localhost"
  port : Nat := 8125
  pfx : Option String := none
  maxudpsize : Nat := 512
  ipv6 : Bool := false
deriving DecidableEq, Repr

/-- A `StatsClient` object: the address of its tag dict in the heap and
the transport options it was constructed with. -/
structure ClientObj where
  tagsRef : Nat
  opts : Options
deriving DecidableEq, Repr

/-- The keyword arguments of one `get_client` call: an optional reference
to a caller-supplied tag dict living in the heap, plus the remaining
options. -/
structure GetClientKwargs where
  tags : Option Nat := none
  opts : Options := {}
deriving DecidableEq, Repr

/-- The value serialized into the cache key: the contents of the tag dict
(if one was passed) at call time, together with the other options.  This
models `json.dumps([module, kwargs])` followed by SHA-256 as an injective
fingerprint of the argument values, per the collision-freedom invariant. -/
abbrev CacheKey := String × (Option Tags × Options)

/-- Program state: the heap of tag dict objects (address = index), the
allocated `StatsClient` objects (instance identity = index), and the
module-level `CLIENTS` cache mapping cache keys to instances. -/
structure MState where
  heap : List Tags
  clients : List ClientObj
  cache : List (CacheKey × Nat)
deriving Repr

/-- Dereference a tag dict address. -/
def heapGet (h : List Tags) (a : Nat) : Tags :=
  h.getD a []

/-- The state before any client has been requested. -/
def initState : MState := ⟨[], [], []⟩

/-- The value of the keyword arguments at call time. -/
def kwargsValue (s : MState) (kw : GetClientKwargs) : Option Tags × Options :=
  (kw.tags.map (fun a => heapGet s.heap a), kw.opts)

/-- `get_cache_key(module, kwargs)`: the fingerprint covers the module and
the keyword-argument values; the service argument is not part of it. -/
def get_cache_key (module : String) (s : MState) (kw : GetClientKwargs) : CacheKey :=
  (module, kwargsValue s kw)

/-- `get_client(service, module, **kwargs)`.  On a hit the cached instance
is returned and the state is untouched.  On a miss the caller-supplied tag
dict (or a fresh empty one) is updated in place with the `module` and
`service` tags, a client holding that very dict is allocated, and the
client is cached under the key computed before the mutation. -/
def get_client (service module : String) (kw : GetClientKwargs) (s : MState) :
    MState × Nat :=
  let key := get_cache_key module s kw
  match assocLookup s.cache key with
  | some cid => (s, cid)
  | none =>
      let cid := s.clients.length
      match kw.tags with
      | some a =>
          let newContents :=
            dictUpdate (heapGet s.heap a) [("module", module), ("service", service)]
          (⟨s.heap.set a newContents,
            s.clients ++ [⟨a, kw.opts⟩],
            s.cache ++ [(key, cid)]⟩, cid)
      | none =>
          let a := s.heap.length
          (⟨s.heap ++ [dictUpdate [] [("module", module), ("service", service)]],
            s.clients ++ [⟨a, kw.opts⟩],
            s.cache ++ [(key, cid)]⟩, cid)

/-- The client object at an instance id. -/
def clientAt (s : MState) (cid : Nat) : ClientObj :=
  s.clients.getD cid ⟨0, {}⟩

/-- The tag dict of a client instance. -/
def clientTagsOf (s : MState) (cid : Nat) : Tags :=
  heapGet s.heap (clientAt s cid).tagsRef

/-- `StatsClient.with_extra_tags(tags)`: copy the receiver tags, update the
copy with the given tags, and construct `self.__class__(tags=all_tags)` —
a fresh instance holding the fresh dict and built with only the `tags`
keyword, hence default transport options. -/
def with_extra_tags (s : MState) (cid : Nat) (tags : Tags) : MState × Nat :=
  let allTags := dictUpdate (clientTagsOf s cid) tags
  let a := s.heap.length
  (⟨s.heap ++ [allTags], s.clients ++ [⟨a, {}⟩], s.cache⟩, s.clients.length)

/-- Two successive `with_extra_tags` calls, the second on the result of
the first. -/
def with_extra_tags_twice (s : MState) (cid : Nat) (t1 t2 : Tags) : MState × Nat :=
  let p1 := with_extra_tags s cid t1
  with_extra_tags p1.1 p1.2 t2

/-- Two successive `get_client` calls. -/
def get_client_twice (sv1 m1 : String) (kw1 : GetClientKwargs)
    (sv2 m2 : String) (kw2 : GetClientKwargs) (s : MState) :
    MState × Nat × Nat :=
  let p1 := get_client sv1 m1 kw1 s
  let p2 := get_client sv2 m2 kw2 p1.1
  (p2.1, p1.2, p2.2)

/-- The keys of a tag dict, in order. -/
def keys (d : Tags) : List String :=
  d.map Prod.fst

/-- Key uniqueness, the representation invariant of a Python dict. -/
def keysUnique (d : Tags) : Prop :=
  (keys d).Nodup

theorem dictUpdate_nil (d : Tags) : dictUpdate d [] = d := rfl

theorem dictUpdate_cons (d : Tags) (k v : String) (u : Tags) :
    dictUpdate d ((k, v) :: u) = dictUpdate (setKey d k v) u := rfl

theorem dictUpdate_singleton (d : Tags) (k v : String) :
    dictUpdate d [(k, v)] = setKey d k v := rfl

theorem get_methods_classname_plain :
    get_methods_classname "wrapped_fn" = "wrapped_fn" := by decide

theorem get_methods_classname_method :
    get_methods_classname "TestClass.wrapped_fn" = "TestClass" := by decide

theorem get_methods_classname_nested :
    get_methods_classname "outer.<locals>.wrapped_fn" = "wrapped_fn" := by decide

theorem keys_nil : keys [] = [] := rfl

theorem keys_cons (k v : String) (rest : Tags) :
    keys ((k, v) :: rest) = k :: keys rest := rfl

theorem assocLookup_setKey_self (d : Tags) (k v : String) :
    assocLookup (setKey d k v) k = some v := by
  induction d with
  | nil => simp [setKey, assocLookup]
  | cons p rest ih =>
      obtain ⟨k0, v0⟩ := p
      by_cases h : k0 = k
      · simp [setKey, assocLookup, h]
      · simp [setKey, assocLookup, h, ih]

theorem assocLookup_setKey_ne (d : Tags) (k v k0 : String) (h : k0 ≠ k) :
    assocLookup (setKey d k v) k0 = assocLookup d k0 := by
  have h2 : ¬(k = k0) := fun hk => h hk.symm
  induction d with
  | nil => simp [setKey, assocLookup, h2]
  | cons p rest ih =>
      obtain ⟨k1, v1⟩ := p
      by_cases h1 : k1 = k
      · subst h1
        simp [setKey, assocLookup, h2]
      · by_cases h3 : k1 = k0
        · subst h3
          simp [setKey, assocLookup, h, h1]
        · simp [setKey, assocLookup, h1, h3, ih]

theorem assocLookup_eq_none_iff (d : Tags) (k : String) :
    assocLookup d k = none ↔ k ∉ keys d := by
  induction d with
  | nil => simp [assocLookup, keys]
  | cons p rest ih =>
      obtain ⟨k0, v0⟩ := p
      by_cases h : k0 = k
      · subst h
        simp [assocLookup, keys_cons]
      · have h2 : ¬(k = k0) := fun hk => h hk.symm
        simp [assocLookup, keys_cons, h, h2, ih]

theorem hasKey_eq_false_iff (d : Tags) (k : String) :
    hasKey d k = false ↔ k ∉ keys d := by
  unfold hasKey
  rw [← assocLookup_eq_none_iff]
  cases assocLookup d k <;> simp

theorem assocLookup_dictUpdate_not_mem (d u : Tags) (k : String) (h : k ∉ keys u) :
    assocLookup (dictUpdate d u) k = assocLookup d k := by
  induction u generalizing d with
  | nil => rfl
  | cons p rest ih =>
      obtain ⟨k0, v0⟩ := p
      rw [keys_cons, List.mem_cons] at h
      push_neg at h
      rw [dictUpdate_cons, ih (setKey d k0 v0) h.2,
        assocLookup_setKey_ne d k0 v0 k h.1]

theorem setKey_not_mem (d : Tags) (k v : String) (h : k ∉ keys d) :
    setKey d k v = d ++ [(k, v)] := by
  induction d with
  | nil => rfl
  | cons p rest ih =>
      obtain ⟨k0, v0⟩ := p
      rw [keys_cons, List.mem_cons] at h
      push_neg at h
      have h1 : ¬(k0 = k) := fun hk => h.1 hk.symm
      simp [setKey, h1, ih h.2]

theorem keys_setKey (d : Tags) (k v : String) :
    keys (setKey d k v) = if k ∈ keys d then keys d else keys d ++ [k] := by
  induction d with
  | nil => simp [setKey, keys]
  | cons p rest ih =>
      obtain ⟨k0, v0⟩ := p
      by_cases h : k0 = k
      · subst h
        simp [setKey, keys_cons]
      · have h2 : ¬(k = k0) := fun hk => h hk.symm
        by_cases h3 : k ∈ keys rest
        · simp [setKey, keys_cons, h, h2, h3, ih]
        · simp [setKey, keys_cons, h, h2, h3, ih]

theorem keysUnique_setKey (d : Tags) (k v : String) (h : keysUnique d) :
    keysUnique (setKey d k v) := by
  unfold keysUnique at h ⊢
  rw [keys_setKey]
  by_cases hm : k ∈ keys d
  · simpa [hm] using h
  · simpa [hm, List.nodup_append] using h

theorem keysUnique_dictUpdate (d u : Tags) (h : keysUnique d) :
    keysUnique (dictUpdate d u) := by
  induction u generalizing d with
  | nil => exact h
  | cons p rest ih =>
      obtain ⟨k0, v0⟩ := p
      rw [dictUpdate_cons]
      exact ih (setKey d k0 v0) (keysUnique_setKey d k0 v0 h)

theorem assocLookup_dictUpdate_of_lookup (d u : Tags) (k v : String)
    (hu : keysUnique u) (h : assocLookup u k = some v) :
    assocLookup (dictUpdate d u) k = some v := by
  induction u generalizing d with
  | nil => simp [assocLookup] at h
  | cons p rest ih =>
      obtain ⟨k0, v0⟩ := p
      rw [keysUnique, keys_cons, List.nodup_cons] at hu
      by_cases hk : k0 = k
      · subst hk
        simp only [assocLookup, if_pos rfl] at h
        obtain rfl : v0 = v := by injection h
        rw [dictUpdate_cons,
          assocLookup_dictUpdate_not_mem (setKey d k0 v0) rest k0 hu.1,
          assocLookup_setKey_self]
      · simp only [assocLookup, if_neg hk] at h
        rw [dictUpdate_cons]
        exact ih (setKey d k0 v0) hu.2 h

theorem assocLookup_append_self {κ ν : Type} [DecidableEq κ]
    (l : List (κ × ν)) (k : κ) (v : ν) (h : assocLookup l k = none) :
    assocLookup (l ++ [(k, v)]) k = some v := by
  induction l with
  | nil => simp [assocLookup]
  | cons p rest ih =>
      obtain ⟨k0, v0⟩ := p
      by_cases hk : k0 = k
      · simp [assocLookup, hk] at h
      · simp only [assocLookup, if_neg hk] at h ⊢
        exact ih h

theorem assocLookup_append_none_ne {κ ν : Type} [DecidableEq κ]
    (l : List (κ × ν)) (k1 k2 : κ) (v : ν)
    (h : assocLookup l k2 = none) (hne : k1 ≠ k2) :
    assocLookup (l ++ [(k1, v)]) k2 = none := by
  induction l with
  | nil => simp [assocLookup, hne]
  | cons p rest ih =>
      obtain ⟨k0, v0⟩ := p
      by_cases hk : k0 = k2
      · simp [assocLookup, hk] at h
      · simp only [List.cons_append, assocLookup, if_neg hk] at h ⊢
        exact ih h

/-- C1: an emitter whose tag dict is exactly module=m, service=s (in that
insertion order) forwards to the underlying client method exactly the name
`incr,module=m,service=s,name=fool` for a counter call with name `fool`,
with the remaining arguments unchanged; an emitter with an empty tag dict
forwards exactly `incr,name=fool`. -/
theorem claim_C1 {ρ : Type} (send : String → List String → ρ) (args : List String) :
    get_metric_wrapped "incr" [("module", "m"), ("service", "s")] send "fool" args =
      send "incr,module=m,service=s,name=fool" args
    ∧ get_metric_wrapped "incr" [] send "fool" args = send "incr,name=fool" args := by
  constructor
  · show send (get_metric_name "incr" [("module", "m"), ("service", "s")] "fool") args = _
    rw [show get_metric_name "incr" [("module", "m"), ("service", "s")] "fool" =
      "incr,module=m,service=s,name=fool" from by decide]
  · show send (get_metric_name "incr" [] "fool") args = _
    rw [show get_metric_name "incr" [] "fool" = "incr,name=fool" from by decide]

/-- C4: the `extra_tags` context manager restores the receiver tag dict to
exactly its prior value on every exit path — the final tags equal the
entry tags no matter what the body does, whether it returns normally or
raises, and however it mutates the tags in between. -/
theorem claim_C4 {ε α : Type} (cur tags : Tags)
    (body : Tags → Except ε (α × Tags)) :
    (extra_tags_scope cur tags body).2 = cur := by
  unfold extra_tags_scope
  cases body (dictUpdate cur tags) with
  | ok a => rfl
  | error e => rfl

/-- C7 counterexample: when the emitter tag dict already contains the key
`name`, the call-site `name` tag is not appended last — the existing entry
is overwritten in place at its original position, so the final key=value
pair of the composed name is not the `name` pair. -/
theorem claim_C7_cex :
    metric_call_tags [("name", "x"), ("a", "b")] "fool" = [("name", "fool"), ("a", "b")]
    ∧ (metric_call_tags [("name", "x"), ("a", "b")] "fool").getLast? ≠
        some ("name", "fool")
    ∧ get_metric_name "incr" [("name", "x"), ("a", "b")] "fool" = "incr,name=fool,a=b" := by
  refine ⟨by decide, by decide, by decide⟩

/-- C7 (amended): tags appear in the composed metric name in the insertion
order of the tag dict at emission time, and whenever the tag dict does not
already contain a key named `name`, the call-site `name` pair is appended
last; when it does, its value is overwritten in place at its original
position (see the counterexample). -/
theorem claim_C7 (metric : String) (tags : Tags) (name : String)
    (h : hasKey tags "name" = false) :
    metric_call_tags tags name = tags ++ [("name", name)]
    ∧ get_metric_name metric tags name =
        metric ++ "," ++ get_tags_string (tags ++ [("name", name)]) := by
  have h1 : metric_call_tags tags name = tags ++ [("name", name)] := by
    rw [metric_call_tags, dictUpdate_singleton]
    exact setKey_not_mem tags "name" name ((hasKey_eq_false_iff tags "name").mp h)
  exact ⟨h1, by rw [get_metric_name, h1]⟩

theorem claim_C7_witness :
    hasKey [("module", "m")] "name" = false
    ∧ (metric_call_tags [("module", "m")] "fool" = [("module", "m"), ("name", "fool")]
      ∧ get_metric_name "incr" [("module", "m")] "fool" =
          "incr" ++ "," ++ get_tags_string ([("module", "m")] ++ [("name", "fool")])) :=
  ⟨by decide, claim_C7 "incr" [("module", "m")] "fool" (by decide)⟩

theorem heapGet_append_lt (h : List Tags) (x : Tags) (a : Nat) (ha : a < h.length) :
    heapGet (h ++ [x]) a = heapGet h a :=
  List.getD_append h [x] [] a ha

theorem heapGet_append_len (h : List Tags) (x : Tags) :
    heapGet (h ++ [x]) h.length = x := by
  unfold heapGet
  rw [List.getD_append_right h [x] [] h.length (le_refl h.length)]
  simp

theorem wet_heap (s : MState) (cid : Nat) (t : Tags) :
    (with_extra_tags s cid t).1.heap =
      s.heap ++ [dictUpdate (clientTagsOf s cid) t] := rfl

theorem wet_clients (s : MState) (cid : Nat) (t : Tags) :
    (with_extra_tags s cid t).1.clients =
      s.clients ++ [⟨s.heap.length, {}⟩] := rfl

theorem wet_id (s : MState) (cid : Nat) (t : Tags) :
    (with_extra_tags s cid t).2 = s.clients.length := rfl

theorem wet_twice_eq (s : MState) (cid : Nat) (t1 t2 : Tags) :
    with_extra_tags_twice s cid t1 t2 =
      with_extra_tags (with_extra_tags s cid t1).1 (with_extra_tags s cid t1).2 t2 := rfl

theorem clientAt_wet_old (s : MState) (cid cid2 : Nat) (t : Tags)
    (h1 : cid2 < s.clients.length) :
    clientAt (with_extra_tags s cid t).1 cid2 = clientAt s cid2 := by
  unfold clientAt
  rw [wet_clients]
  exact List.getD_append s.clients [⟨s.heap.length, {}⟩] ⟨0, {}⟩ cid2 h1

theorem clientAt_wet_new (s : MState) (cid : Nat) (t : Tags) :
    clientAt (with_extra_tags s cid t).1 (with_extra_tags s cid t).2 =
      ⟨s.heap.length, {}⟩ := by
  unfold clientAt
  rw [wet_clients, wet_id,
    List.getD_append_right s.clients [⟨s.heap.length, {}⟩] ⟨0, {}⟩ s.clients.length
      (le_refl s.clients.length)]
  simp

theorem wet_child_tags (s : MState) (cid : Nat) (t : Tags) :
    clientTagsOf (with_extra_tags s cid t).1 (with_extra_tags s cid t).2 =
      dictUpdate (clientTagsOf s cid) t := by
  unfold clientTagsOf
  rw [clientAt_wet_new, wet_heap]
  exact heapGet_append_len s.heap (dictUpdate (clientTagsOf s cid) t)

theorem wet_old_tags (s : MState) (cid cid2 : Nat) (t : Tags)
    (h1 : cid2 < s.clients.length)
    (h2 : (clientAt s cid2).tagsRef < s.heap.length) :
    clientTagsOf (with_extra_tags s cid t).1 cid2 = clientTagsOf s cid2 := by
  unfold clientTagsOf
  rw [clientAt_wet_old s cid cid2 t h1, wet_heap]
  exact heapGet_append_lt s.heap (dictUpdate (clientTagsOf s cid) t)
    (clientAt s cid2).tagsRef h2

/-- C3: chaining `with_extra_tags(T1)` then `with_extra_tags(T2)` yields an
emitter whose tag dict is the receiver tag dict merged with T1 then T2,
later updates winning on key conflict; the receiver tag dict is unchanged
by either call, and each call allocates a new instance distinct from its
receiver. -/
theorem claim_C3 (s : MState) (cid : Nat) (t1 t2 : Tags)
    (h1 : cid < s.clients.length)
    (h2 : (clientAt s cid).tagsRef < s.heap.length) :
    clientTagsOf (with_extra_tags_twice s cid t1 t2).1 (with_extra_tags_twice s cid t1 t2).2 =
        dictUpdate (dictUpdate (clientTagsOf s cid) t1) t2
    ∧ clientTagsOf (with_extra_tags s cid t1).1 cid = clientTagsOf s cid
    ∧ clientTagsOf (with_extra_tags_twice s cid t1 t2).1 cid = clientTagsOf s cid
    ∧ (with_extra_tags s cid t1).2 ≠ cid
    ∧ (with_extra_tags_twice s cid t1 t2).2 ≠ (with_extra_tags s cid t1).2 := by
  have h1b : cid < (with_extra_tags s cid t1).1.clients.length := by
    rw [wet_clients]
    simp only [List.length_append, List.length_cons, List.length_nil]
    omega
  have h2b : (clientAt (with_extra_tags s cid t1).1 cid).tagsRef <
      (with_extra_tags s cid t1).1.heap.length := by
    rw [clientAt_wet_old s cid cid t1 h1, wet_heap]
    simp only [List.length_append, List.length_cons, List.length_nil]
    omega
  refine ⟨?_, ?_, ?_, ?_, ?_⟩
  · rw [wet_twice_eq, wet_child_tags, wet_child_tags]
  · exact wet_old_tags s cid cid t1 h1 h2
  · rw [wet_twice_eq,
      wet_old_tags (with_extra_tags s cid t1).1 (with_extra_tags s cid t1).2 cid t2 h1b h2b,
      wet_old_tags s cid cid t1 h1 h2]
  · rw [wet_id]
    omega
  · rw [wet_twice_eq, wet_id, wet_id, wet_clients]
    simp only [List.length_append, List.length_cons, List.length_nil]
    omega

theorem claim_C3_witness :
    0 < (MState.mk [[("module", "m")]] [⟨0, {}⟩] []).clients.length
    ∧ (clientAt (MState.mk [[("module", "m")]] [⟨0, {}⟩] []) 0).tagsRef <
        (MState.mk [[("module", "m")]] [⟨0, {}⟩] []).heap.length
    ∧ (clientTagsOf
          (with_extra_tags_twice (MState.mk [[("module", "m")]] [⟨0, {}⟩] []) 0
            [("a", "1")] [("a", "2"), ("b", "3")]).1
          (with_extra_tags_twice (MState.mk [[("module", "m")]] [⟨0, {}⟩] []) 0
            [("a", "1")] [("a", "2"), ("b", "3")]).2 =
        dictUpdate (dictUpdate
          (clientTagsOf (MState.mk [[("module", "m")]] [⟨0, {}⟩] []) 0)
          [("a", "1")]) [("a", "2"), ("b", "3")]
      ∧ clientTagsOf
          (with_extra_tags (MState.mk [[("module", "m")]] [⟨0, {}⟩] []) 0
            [("a", "1")]).1 0 =
          clientTagsOf (MState.mk [[("module", "m")]] [⟨0, {}⟩] []) 0
      ∧ clientTagsOf
          (with_extra_tags_twice (MState.mk [[("module", "m")]] [⟨0, {}⟩] []) 0
            [("a", "1")] [("a", "2"), ("b", "3")]).1 0 =
          clientTagsOf (MState.mk [[("module", "m")]] [⟨0, {}⟩] []) 0
      ∧ (with_extra_tags (MState.mk [[("module", "m")]] [⟨0, {}⟩] []) 0
            [("a", "1")]).2 ≠ 0
      ∧ (with_extra_tags_twice (MState.mk [[("module", "m")]] [⟨0, {}⟩] []) 0
            [("a", "1")] [("a", "2"), ("b", "3")]).2 ≠
          (with_extra_tags (MState.mk [[("module", "m")]] [⟨0, {}⟩] []) 0
            [("a", "1")]).2) :=
  ⟨by decide, by decide,
    claim_C3 (MState.mk [[("module", "m")]] [⟨0, {}⟩] []) 0
      [("a", "1")] [("a", "2"), ("b", "3")] (by decide) (by decide)⟩

/-- C9: the instance returned by `with_extra_tags` is constructed with only
the merged tag dict; the receiver transport options are not propagated —
the child carries the class defaults whatever the receiver was constructed
with. -/
theorem claim_C9 (s : MState) (cid : Nat) (t : Tags) :
    (clientAt (with_extra_tags s cid t).1 (with_extra_tags s cid t).2).opts =
        ({} : Options)
    ∧ clientTagsOf (with_extra_tags s cid t).1 (with_extra_tags s cid t).2 =
        dictUpdate (clientTagsOf s cid) t := by
  constructor
  · rw [clientAt_wet_new]
  · exact wet_child_tags s cid t

theorem getD_append_self {α : Type} (l : List α) (x d : α) :
    (l ++ [x]).getD l.length d = x := by
  rw [List.getD_append_right l [x] d l.length (le_refl l.length)]
  simp

theorem heapGet_set_self (h : List Tags) (a : Nat) (x : Tags) (ha : a < h.length) :
    heapGet (h.set a x) a = x := by
  unfold heapGet
  simp [List.getD, List.getElem?_set_self', List.getElem?_eq_getElem ha]

theorem get_cache_key_none (module : String) (s : MState) (opts : Options) :
    get_cache_key module s ⟨none, opts⟩ = (module, none, opts) := rfl

theorem get_cache_key_tags (module : String) (s : MState) (a : Nat) (opts : Options) :
    get_cache_key module s ⟨some a, opts⟩ =
      (module, some (heapGet s.heap a), opts) := rfl

theorem get_client_some (service module : String) (kw : GetClientKwargs)
    (s : MState) (cid : Nat)
    (h : assocLookup s.cache (get_cache_key module s kw) = some cid) :
    get_client service module kw s = (s, cid) := by
  simp only [get_client, h]

theorem get_client_miss_none (service module : String) (opts : Options) (s : MState)
    (h : assocLookup s.cache (module, none, opts) = none) :
    get_client service module ⟨none, opts⟩ s =
      (⟨s.heap ++ [dictUpdate [] [("module", module), ("service", service)]],
        s.clients ++ [⟨s.heap.length, opts⟩],
        s.cache ++ [((module, none, opts), s.clients.length)]⟩,
       s.clients.length) := by
  simp only [get_client, get_cache_key, kwargsValue, Option.map_none', h]

theorem get_client_miss_tags (service module : String) (a : Nat) (opts : Options)
    (s : MState)
    (h : assocLookup s.cache (get_cache_key module s ⟨some a, opts⟩) = none) :
    get_client service module ⟨some a, opts⟩ s =
      (⟨s.heap.set a
          (dictUpdate (heapGet s.heap a) [("module", module), ("service", service)]),
        s.clients ++ [⟨a, opts⟩],
        s.cache ++ [(get_cache_key module s ⟨some a, opts⟩, s.clients.length)]⟩,
       s.clients.length) := by
  simp only [get_client, h]

/-- C10: on a cache miss with a caller-supplied tags dict, `get_client`
mutates that very dict in place (adding the `module` and `service` keys)
and installs the same object as the tag dict of the new client, so the
caller dict and the cached emitter tag dict are one object. -/
theorem claim_C10 (service module : String) (a : Nat) (opts : Options) (s : MState)
    (hmiss : assocLookup s.cache (get_cache_key module s ⟨some a, opts⟩) = none)
    (ha : a < s.heap.length) :
    (clientAt (get_client service module ⟨some a, opts⟩ s).1
        (get_client service module ⟨some a, opts⟩ s).2).tagsRef = a
    ∧ heapGet (get_client service module ⟨some a, opts⟩ s).1.heap a =
        dictUpdate (heapGet s.heap a) [("module", module), ("service", service)]
    ∧ clientTagsOf (get_client service module ⟨some a, opts⟩ s).1
        (get_client service module ⟨some a, opts⟩ s).2 =
        dictUpdate (heapGet s.heap a) [("module", module), ("service", service)] := by
  have hgc := get_client_miss_tags service module a opts s hmiss
  have hat : clientAt (get_client service module ⟨some a, opts⟩ s).1
      (get_client service module ⟨some a, opts⟩ s).2 = ⟨a, opts⟩ := by
    rw [hgc]
    exact getD_append_self s.clients ⟨a, opts⟩ ⟨0, {}⟩
  have hheap : heapGet (get_client service module ⟨some a, opts⟩ s).1.heap a =
      dictUpdate (heapGet s.heap a) [("module", module), ("service", service)] := by
    rw [hgc]
    exact heapGet_set_self s.heap a _ ha
  exact ⟨by rw [hat], hheap, by rw [clientTagsOf, hat]; exact hheap⟩

theorem claim_C10_witness :
    assocLookup (MState.mk [[("k", "v")]] [] []).cache
        (get_cache_key "m" (MState.mk [[("k", "v")]] [] []) ⟨some 0, {}⟩) = none
    ∧ 0 < (MState.mk [[("k", "v")]] [] []).heap.length
    ∧ ((clientAt (get_client "s" "m" ⟨some 0, {}⟩ (MState.mk [[("k", "v")]] [] [])).1
          (get_client "s" "m" ⟨some 0, {}⟩ (MState.mk [[("k", "v")]] [] [])).2).tagsRef = 0
      ∧ heapGet (get_client "s" "m" ⟨some 0, {}⟩ (MState.mk [[("k", "v")]] [] [])).1.heap 0 =
          dictUpdate (heapGet (MState.mk [[("k", "v")]] [] []).heap 0)
            [("module", "m"), ("service", "s")]
      ∧ clientTagsOf (get_client "s" "m" ⟨some 0, {}⟩ (MState.mk [[("k", "v")]] [] [])).1
          (get_client "s" "m" ⟨some 0, {}⟩ (MState.mk [[("k", "v")]] [] [])).2 =
          dictUpdate (heapGet (MState.mk [[("k", "v")]] [] []).heap 0)
            [("module", "m"), ("service", "s")]) :=
  ⟨rfl, by decide, claim_C10 "s" "m" 0 {} (MState.mk [[("k", "v")]] [] []) rfl (by decide)⟩

/-- C2 counterexample: two `get_client` calls that differ only in the
service argument return the identical cached instance, because the cache
key covers only the module and the keyword arguments. -/
theorem claim_C2_cex :
    ("s1" : String) ≠ "s2"
    ∧ (get_client_twice "s1" "m" {} "s2" "m" {} initState).2.1 =
        (get_client_twice "s1" "m" {} "s2" "m" {} initState).2.2 :=
  ⟨by decide, by decide⟩

/-- C2 (amended): the registry fingerprint covers only the module and the
keyword-argument values at call time — never the service.  Without a
caller-supplied tags dict, two calls with equal module and options return
the identical instance regardless of the service argument, and from a
fresh registry two calls return the identical instance exactly when their
(module, options) pairs are equal.  With a caller-supplied tags dict, the
first call mutates that dict in place, so a second call with the very same
arguments computes a different fingerprint and returns a distinct instance
whenever the mutation changed the dict contents and the mutated
fingerprint was not already cached. -/
theorem claim_C2 :
    (∀ (s : MState) (sv1 sv2 m : String) (opts : Options),
      (get_client_twice sv1 m ⟨none, opts⟩ sv2 m ⟨none, opts⟩ s).2.1 =
        (get_client_twice sv1 m ⟨none, opts⟩ sv2 m ⟨none, opts⟩ s).2.2)
    ∧ (∀ (sv1 sv2 m1 m2 : String) (o1 o2 : Options),
      ((get_client_twice sv1 m1 ⟨none, o1⟩ sv2 m2 ⟨none, o2⟩ initState).2.1 =
          (get_client_twice sv1 m1 ⟨none, o1⟩ sv2 m2 ⟨none, o2⟩ initState).2.2
        ↔ (m1, o1) = (m2, o2)))
    ∧ (∀ (s : MState) (sv m : String) (a : Nat) (opts : Options),
      a < s.heap.length →
      assocLookup s.cache (get_cache_key m s ⟨some a, opts⟩) = none →
      assocLookup s.cache
        ((m, some (dictUpdate (heapGet s.heap a)
            [("module", m), ("service", sv)]), opts) : CacheKey) = none →
      dictUpdate (heapGet s.heap a) [("module", m), ("service", sv)] ≠
        heapGet s.heap a →
      (get_client_twice sv m ⟨some a, opts⟩ sv m ⟨some a, opts⟩ s).2.1 ≠
        (get_client_twice sv m ⟨some a, opts⟩ sv m ⟨some a, opts⟩ s).2.2) := by
  refine ⟨?_, ?_, ?_⟩
  · intro s sv1 sv2 m opts
    cases h : assocLookup s.cache ((m, none, opts) : CacheKey) with
    | some cid =>
        have e1 := get_client_some sv1 m ⟨none, opts⟩ s cid h
        have e2 := get_client_some sv2 m ⟨none, opts⟩ s cid h
        simp [get_client_twice, e1, e2]
    | none =>
        have e1 := get_client_miss_none sv1 m opts s h
        have h2 : assocLookup
            (s.cache ++ [((m, none, opts), s.clients.length)])
            ((m, none, opts) : CacheKey) = some s.clients.length :=
          assocLookup_append_self s.cache (m, none, opts) s.clients.length h
        simp only [get_client_twice, e1]
        have e2 := get_client_some sv2 m ⟨none, opts⟩
          ⟨s.heap ++ [dictUpdate [] [("module", m), ("service", sv1)]],
            s.clients ++ [⟨s.heap.length, opts⟩],
            s.cache ++ [((m, none, opts), s.clients.length)]⟩
          s.clients.length h2
        simp [e2]
  · intro sv1 sv2 m1 m2 o1 o2
    have e1 := get_client_miss_none sv1 m1 o1 initState rfl
    by_cases hmo : (m1, o1) = ((m2, o2) : String × Options)
    · obtain ⟨hm, ho⟩ := Prod.mk.injEq .. ▸ hmo
      subst hm
      subst ho
      have h2 : assocLookup
          (initState.cache ++ [((m1, none, o1), initState.clients.length)])
          ((m1, none, o1) : CacheKey) = some initState.clients.length :=
        assocLookup_append_self initState.cache (m1, none, o1)
          initState.clients.length rfl
      have e2 := get_client_some sv2 m1 ⟨none, o1⟩
        ⟨initState.heap ++ [dictUpdate [] [("module", m1), ("service", sv1)]],
          initState.clients ++ [⟨initState.heap.length, o1⟩],
          initState.cache ++ [((m1, none, o1), initState.clients.length)]⟩
        initState.clients.length h2
      simp [get_client_twice, e1, e2]
    · have hkey : ((m1, none, o1) : CacheKey) ≠ (m2, none, o2) := by
        intro hk
        apply hmo
        have hm : m1 = m2 := congrArg Prod.fst hk
        have ho : o1 = o2 := congrArg (fun p => p.2.2) hk
        rw [hm, ho]
      have h2 : assocLookup
          (initState.cache ++ [((m1, none, o1), initState.clients.length)])
          ((m2, none, o2) : CacheKey) = none := by
        simp [initState, assocLookup, hkey]
      have e2 := get_client_miss_none sv2 m2 o2
        ⟨initState.heap ++ [dictUpdate [] [("module", m1), ("service", sv1)]],
          initState.clients ++ [⟨initState.heap.length, o1⟩],
          initState.cache ++ [((m1, none, o1), initState.clients.length)]⟩
        (by simpa [initState] using h2)
      simp only [get_client_twice, e1, e2]
      simp [initState, hmo]
  · intro s sv m a opts ha hmiss1 hmiss2 hne
    have e1 := get_client_miss_tags sv m a opts s hmiss1
    have hget : heapGet (s.heap.set a
        (dictUpdate (heapGet s.heap a) [("module", m), ("service", sv)])) a =
        dictUpdate (heapGet s.heap a) [("module", m), ("service", sv)] :=
      heapGet_set_self s.heap a _ ha
    have hkeyne : ((m, some (heapGet s.heap a), opts) : CacheKey) ≠
        (m, some (dictUpdate (heapGet s.heap a)
          [("module", m), ("service", sv)]), opts) := by
      intro hk
      apply hne
      have hv := congrArg (fun p : CacheKey => p.2.1) hk
      simp only [Option.some.injEq] at hv
      exact hv.symm
    have h2 : assocLookup
        (s.cache ++ [((m, some (heapGet s.heap a), opts), s.clients.length)])
        ((m, some (dictUpdate (heapGet s.heap a)
          [("module", m), ("service", sv)]), opts) : CacheKey) = none :=
      assocLookup_append_none_ne s.cache (m, some (heapGet s.heap a), opts)
        (m, some (dictUpdate (heapGet s.heap a)
          [("module", m), ("service", sv)]), opts)
        s.clients.length hmiss2 hkeyne
    have e2 := get_client_miss_tags sv m a opts
      ⟨s.heap.set a
        (dictUpdate (heapGet s.heap a) [("module", m), ("service", sv)]),
       s.clients ++ [⟨a, opts⟩],
       s.cache ++ [((m, some (heapGet s.heap a), opts), s.clients.length)]⟩
      (by rw [get_cache_key_tags]
          show assocLookup
            (s.cache ++ [((m, some (heapGet s.heap a), opts), s.clients.length)]) _ = none
          rw [show heapGet (s.heap.set a
              (dictUpdate (heapGet s.heap a) [("module", m), ("service", sv)])) a =
              dictUpdate (heapGet s.heap a) [("module", m), ("service", sv)] from hget]
          exact h2)
    simp only [get_client_twice, get_cache_key_tags] at e1 e2 ⊢
    rw [e1]
    simp only [e2]
    simp [List.length_append]

theorem claim_C2_witness :
    0 < (MState.mk [[("x", "y")]] [] []).heap.length
    ∧ assocLookup (MState.mk [[("x", "y")]] [] []).cache
        (get_cache_key "m" (MState.mk [[("x", "y")]] [] []) ⟨some 0, {}⟩) = none
    ∧ assocLookup (MState.mk [[("x", "y")]] [] []).cache
        (("m", some (dictUpdate (heapGet (MState.mk [[("x", "y")]] [] []).heap 0)
            [("module", "m"), ("service", "s")]), ({} : Options)) : CacheKey) = none
    ∧ dictUpdate (heapGet (MState.mk [[("x", "y")]] [] []).heap 0)
        [("module", "m"), ("service", "s")] ≠
        heapGet (MState.mk [[("x", "y")]] [] []).heap 0
    ∧ (get_client_twice "s" "m" ⟨some 0, {}⟩ "s" "m" ⟨some 0, {}⟩
          (MState.mk [[("x", "y")]] [] [])).2.1 ≠
        (get_client_twice "s" "m" ⟨some 0, {}⟩ "s" "m" ⟨some 0, {}⟩
          (MState.mk [[("x", "y")]] [] [])).2.2 :=
  ⟨by decide, rfl, rfl, by decide,
    claim_C2.2.2 (MState.mk [[("x", "y")]] [] []) "s" "m" 0 {}
      (by decide) rfl rfl (by decide)⟩

theorem measure_tags_extra1_def (fnName : String) (de : Tags)
    (hdef : assocLookup de "def" = none) :
    assocLookup (dictUpdate [("def", fnName)] de) "def" = some fnName := by
  rw [assocLookup_dictUpdate_not_mem [("def", fnName)] de "def"
    ((assocLookup_eq_none_iff de "def").mp hdef)]
  rfl

theorem measure_tags_def_lookup (fnName qualname : String) (de : Tags)
    (hdef : assocLookup de "def" = none) :
    assocLookup (measure_tags fnName qualname de) "def" = some fnName := by
  have hx := measure_tags_extra1_def fnName de hdef
  unfold measure_tags
  dsimp only
  rw [hx]
  by_cases hc : get_methods_classname qualname ≠ "" ∧
      get_methods_classname qualname ≠ (some fnName).getD ""
  · rw [if_pos hc, dictUpdate_singleton,
      assocLookup_setKey_ne (dictUpdate [("def", fnName)] de) "class"
        (get_methods_classname qualname) "def" (by decide)]
    exact hx
  · rw [if_neg hc]
    exact hx

theorem measure_tags_keysUnique (fnName qualname : String) (de : Tags) :
    keysUnique (measure_tags fnName qualname de) := by
  have h1 : keysUnique (dictUpdate [("def", fnName)] de) :=
    keysUnique_dictUpdate [("def", fnName)] de (by simp [keysUnique, keys])
  unfold measure_tags
  by_cases hc : get_methods_classname qualname ≠ "" ∧
      get_methods_classname qualname ≠
        (assocLookup (dictUpdate [("def", fnName)] de) "def").getD ""
  · rw [if_pos hc]
    exact keysUnique_dictUpdate _ _ h1
  · rw [if_neg hc]
    exact h1

theorem measure_tags_class_lookup (fnName qualname : String) (de : Tags)
    (hdef : assocLookup de "def" = none)
    (h1 : get_methods_classname qualname ≠ "")
    (h2 : get_methods_classname qualname ≠ fnName) :
    assocLookup (measure_tags fnName qualname de) "class" =
      some (get_methods_classname qualname) := by
  have hx := measure_tags_extra1_def fnName de hdef
  unfold measure_tags
  dsimp only
  rw [hx, if_pos (by exact ⟨h1, by simpa using h2⟩), dictUpdate_singleton]
  exact assocLookup_setKey_self (dictUpdate [("def", fnName)] de) "class"
    (get_methods_classname qualname)

theorem measure_tags_other_lookup (fnName qualname : String) (de : Tags)
    (k v : String) (hk : k ≠ "class") (hu : keysUnique de)
    (h : assocLookup de k = some v) :
    assocLookup (measure_tags fnName qualname de) k = some v := by
  have hx : assocLookup (dictUpdate [("def", fnName)] de) k = some v :=
    assocLookup_dictUpdate_of_lookup [("def", fnName)] de k v hu h
  unfold measure_tags
  by_cases hc : get_methods_classname qualname ≠ "" ∧
      get_methods_classname qualname ≠
        (assocLookup (dictUpdate [("def", fnName)] de) "def").getD ""
  · rw [if_pos hc, dictUpdate_singleton,
      assocLookup_setKey_ne (dictUpdate [("def", fnName)] de) "class"
        (get_methods_classname qualname) k hk]
    exact hx
  · rw [if_neg hc]
    exact hx

theorem measure_wrapper_eq {β : Type} (clientTags de : Tags) (fn : PyFunction β) :
    measure_wrapper clientTags de fn =
      ⟨fn.call (statsd_injected fn.code),
       [Event.incr (get_metric_name "incr"
          (dictUpdate clientTags (measure_tags fn.name fn.qualname de)) "calls"),
        Event.timer (get_metric_name "timer"
          (dictUpdate clientTags (measure_tags fn.name fn.qualname de)) "duration"),
        Event.call],
       clientTags⟩ := by
  unfold measure_wrapper extra_tags_scope
  cases h : fn.call (statsd_injected fn.code) with
  | ok b => simp [h]
  | error e => simp [h]

/-- C5: one call of a decorated function emits exactly one `calls` counter
and then one `duration` timer (the timer entered around the inner
invocation, which runs last), both composed over the same tag dict `T` —
the ambient emitter tags updated with the measurement tags; the wrapper
returns the inner outcome unchanged; `T` maps `def` to the function name,
leaves ambient tags not overridden by measurement tags intact, carries
every decorator-supplied extra tag (other than a `class` override), and,
when the qualified name exhibits an owning class different from the
function name, maps `class` to that class name. -/
theorem claim_C5 {β : Type} (clientTags de : Tags) (fn : PyFunction β) (T : Tags)
    (hdef : assocLookup de "def" = none) (hu : keysUnique de)
    (hT : T = dictUpdate clientTags (measure_tags fn.name fn.qualname de)) :
    (measure_wrapper clientTags de fn).events =
        [Event.incr (get_metric_name "incr" T "calls"),
         Event.timer (get_metric_name "timer" T "duration"),
         Event.call]
    ∧ (measure_wrapper clientTags de fn).result = fn.call (statsd_injected fn.code)
    ∧ assocLookup T "def" = some fn.name
    ∧ (∀ k, k ∉ keys (measure_tags fn.name fn.qualname de) →
        assocLookup T k = assocLookup clientTags k)
    ∧ (∀ k v, k ≠ "class" → assocLookup de k = some v → assocLookup T k = some v)
    ∧ (get_methods_classname fn.qualname ≠ "" →
        get_methods_classname fn.qualname ≠ fn.name →
        assocLookup T "class" = some (get_methods_classname fn.qualname)) := by
  subst hT
  refine ⟨?_, ?_, ?_, ?_, ?_, ?_⟩
  · rw [measure_wrapper_eq]
  · rw [measure_wrapper_eq]
  · exact assocLookup_dictUpdate_of_lookup clientTags _ "def" fn.name
      (measure_tags_keysUnique fn.name fn.qualname de)
      (measure_tags_def_lookup fn.name fn.qualname de hdef)
  · intro k hk
    exact assocLookup_dictUpdate_not_mem clientTags _ k hk
  · intro k v hk hv
    exact assocLookup_dictUpdate_of_lookup clientTags _ k v
      (measure_tags_keysUnique fn.name fn.qualname de)
      (measure_tags_other_lookup fn.name fn.qualname de k v hk hu hv)
  · intro h1 h2
    exact assocLookup_dictUpdate_of_lookup clientTags _ "class" _
      (measure_tags_keysUnique fn.name fn.qualname de)
      (measure_tags_class_lookup fn.name fn.qualname de hdef h1 h2)

theorem claim_C5_witness :
    assocLookup [("foo", "one")] "def" = none
    ∧ keysUnique [("foo", "one")]
    ∧ ([("module", "m"), ("service", "test"), ("def", "wrapped_fn"),
          ("foo", "one"), ("class", "TestClass")] : Tags) =
        dictUpdate [("module", "m"), ("service", "test")]
          (measure_tags "wrapped_fn" "TestClass.wrapped_fn" [("foo", "one")])
    ∧ ((measure_wrapper [("module", "m"), ("service", "test")] [("foo", "one")]
          (PyFunction.mk "wrapped_fn" "TestClass.wrapped_fn" ⟨["self"], []⟩
            (fun _ => Except.ok (0 : Nat)))).events =
        [Event.incr (get_metric_name "incr"
            [("module", "m"), ("service", "test"), ("def", "wrapped_fn"),
              ("foo", "one"), ("class", "TestClass")] "calls"),
         Event.timer (get_metric_name "timer"
            [("module", "m"), ("service", "test"), ("def", "wrapped_fn"),
              ("foo", "one"), ("class", "TestClass")] "duration"),
         Event.call]
      ∧ (measure_wrapper [("module", "m"), ("service", "test")] [("foo", "one")]
          (PyFunction.mk "wrapped_fn" "TestClass.wrapped_fn" ⟨["self"], []⟩
            (fun _ => Except.ok (0 : Nat)))).result = Except.ok 0
      ∧ assocLookup ([("module", "m"), ("service", "test"), ("def", "wrapped_fn"),
            ("foo", "one"), ("class", "TestClass")] : Tags) "def" = some "wrapped_fn"
      ∧ (∀ k, k ∉ keys (measure_tags "wrapped_fn" "TestClass.wrapped_fn" [("foo", "one")]) →
          assocLookup ([("module", "m"), ("service", "test"), ("def", "wrapped_fn"),
              ("foo", "one"), ("class", "TestClass")] : Tags) k =
            assocLookup [("module", "m"), ("service", "test")] k)
      ∧ (∀ k v, k ≠ "class" → assocLookup [("foo", "one")] k = some v →
          assocLookup ([("module", "m"), ("service", "test"), ("def", "wrapped_fn"),
              ("foo", "one"), ("class", "TestClass")] : Tags) k = some v)
      ∧ (get_methods_classname "TestClass.wrapped_fn" ≠ "" →
          get_methods_classname "TestClass.wrapped_fn" ≠ "wrapped_fn" →
          assocLookup ([("module", "m"), ("service", "test"), ("def", "wrapped_fn"),
              ("foo", "one"), ("class", "TestClass")] : Tags) "class" =
            some (get_methods_classname "TestClass.wrapped_fn"))) :=
  ⟨by decide, by simp [keysUnique, keys], by decide,
    claim_C5 [("module", "m"), ("service", "test")] [("foo", "one")]
      (PyFunction.mk "wrapped_fn" "TestClass.wrapped_fn" ⟨["self"], []⟩
        (fun _ => Except.ok (0 : Nat)))
      [("module", "m"), ("service", "test"), ("def", "wrapped_fn"),
        ("foo", "one"), ("class", "TestClass")]
      (by decide) (by simp [keysUnique, keys]) (by decide)⟩

/-- C6: when the wrapped function raises, the `calls` counter has already
been emitted (first event), the tag scope is restored to exactly the prior
emitter tags, and the failure propagates unchanged as the wrapper outcome. -/
theorem claim_C6 {β : Type} (clientTags de : Tags) (fn : PyFunction β) (msg : String)
    (hfail : fn.call (statsd_injected fn.code) = Except.error msg) :
    (measure_wrapper clientTags de fn).result = Except.error msg
    ∧ (measure_wrapper clientTags de fn).finalTags = clientTags
    ∧ (measure_wrapper clientTags de fn).events =
        [Event.incr (get_metric_name "incr"
            (dictUpdate clientTags (measure_tags fn.name fn.qualname de)) "calls"),
         Event.timer (get_metric_name "timer"
            (dictUpdate clientTags (measure_tags fn.name fn.qualname de)) "duration"),
         Event.call] := by
  rw [measure_wrapper_eq]
  exact ⟨hfail, rfl, rfl⟩

theorem claim_C6_witness :
    (PyFunction.mk "boom_fn" "boom_fn" (⟨[], []⟩ : CodeObj)
        (fun _ => Except.error "boom" : Bool → Except String Nat)).call
      (statsd_injected (PyFunction.mk "boom_fn" "boom_fn" (⟨[], []⟩ : CodeObj)
        (fun _ => Except.error "boom" : Bool → Except String Nat)).code) =
      Except.error "boom"
    ∧ ((measure_wrapper [("module", "m")] []
          (PyFunction.mk "boom_fn" "boom_fn" (⟨[], []⟩ : CodeObj)
            (fun _ => Except.error "boom" : Bool → Except String Nat))).result =
        Except.error "boom"
      ∧ (measure_wrapper [("module", "m")] []
          (PyFunction.mk "boom_fn" "boom_fn" (⟨[], []⟩ : CodeObj)
            (fun _ => Except.error "boom" : Bool → Except String Nat))).finalTags =
        [("module", "m")]
      ∧ (measure_wrapper [("module", "m")] []
          (PyFunction.mk "boom_fn" "boom_fn" (⟨[], []⟩ : CodeObj)
            (fun _ => Except.error "boom" : Bool → Except String Nat))).events =
        [Event.incr (get_metric_name "incr"
            (dictUpdate [("module", "m")] (measure_tags "boom_fn" "boom_fn" [])) "calls"),
         Event.timer (get_metric_name "timer"
            (dictUpdate [("module", "m")] (measure_tags "boom_fn" "boom_fn" [])) "duration"),
         Event.call]) :=
  ⟨rfl,
    claim_C6 [("module", "m")] []
      (PyFunction.mk "boom_fn" "boom_fn" (⟨[], []⟩ : CodeObj)
        (fun _ => Except.error "boom" : Bool → Except String Nat))
      "boom" rfl⟩

/-- C8: the code decides the injection from `co_varnames`, which lists the
local variables of the body as well as the declared parameters.  A function
that merely uses a local variable named `statsd`, with no such parameter,
is therefore injected — contradicting the comment in the source (inject
only when the function has a `statsd` kwarg) and making the call raise a
TypeError for an unexpected keyword argument. -/
theorem claim_C8_bug :
    statsd_injected ⟨[], ["statsd"]⟩ = true
    ∧ "statsd" ∉ (⟨[], ["statsd"]⟩ : CodeObj).params
    ∧ "statsd" ∉ (⟨["x", "y"], ["acc"]⟩ : CodeObj).params
      ∧ statsd_injected ⟨["x", "y"], ["acc"]⟩ = false := by
  refine ⟨by decide, by decide, by decide, by decide⟩

end Influxstats
